import Mathlib

/-!
Shallow embedding of the bank-account storage benchmark (`src/main.cpp`).

The program stores `BankAccount` records (a 10-digit account-number string plus a
balance) behind one of three interchangeable storage backends:

* `MapAccountStorage` — a `std::map<std::string, BankAccount>`;
* `DistributedVectorAccountStorage` — ten vectors, one per leading digit of the
  account number;
* `BinarySearchStorage` — one vector that is fully re-sorted on every `findAccount`
  call and then binary-searched.

A `Bank` façade forwards `addAccount`/`getAccount` to the chosen backend, and the file
also contains an unused fixed-capacity circular `Queue`.

Modelling conventions:

* Machine integers that can only hold small non-negative values are `Nat`; the C++
  `int` bucket index and the binary-search cursors, which can go negative, are `Int`.
* `nullptr` results are `none`.
* Undefined behavior (the out-of-range bucket access `accounts[firstChar - '0']` for a
  key whose first character is not a decimal digit) is modelled by an outer `Option`
  layer whose `none` marks that the C++ program performed an out-of-range access.
-/

/-- Bank account record. The C++ `BankAccount` holds a `std::string` account number and
a `float` balance; the balance is only ever constructed, stored and copied — never used
in arithmetic — so it is modelled by `Int`. -/
structure BankAccount where
  accountNumber : String
  balance : Int
deriving DecidableEq

/-- The C++ default constructor `BankAccount()`: empty account number (its
uninitialized `float` balance is modelled as `0`; no claim observes it). -/
instance : Inhabited BankAccount := ⟨⟨"", 0⟩⟩

/-- The C++ constructor `BankAccount(accountNumber)` with the defaulted `balance = 0`,
used by the implicit conversion in `Bank::addAccount`. -/
def BankAccount.ofNumber (accountNumber : String) : BankAccount :=
  ⟨accountNumber, 0⟩

/-- The C++ expression `s[0]` on a `std::string`: the first character, or the null
character when the string is empty (`operator[]` at index `size()` yields `'\0'`). -/
def strFirstChar (s : String) : Char :=
  s.data.headD (Char.ofNat 0)

/-! ### MapAccountStorage -/

/-- `MapAccountStorage`: backed by `std::map<std::string, BankAccount>`, modelled by
its denotation as a partial map from account numbers to accounts. -/
structure MapAccountStorage where
  accounts : String → Option BankAccount

/-- An empty, default-constructed `std::map`. -/
def MapAccountStorage.empty : MapAccountStorage :=
  ⟨fun _ => none⟩

/-- The C++ `accounts[account.getAccountNumber()] = account`: `operator[]` inserts a
default entry when the key is absent and the assignment overwrites it, so the net
effect is an upsert of the key to `account`. -/
def MapAccountStorage.addAccount (m : MapAccountStorage) (account : BankAccount) :
    MapAccountStorage :=
  ⟨fun k => if k = account.accountNumber then some account else m.accounts k⟩

/-- The C++ `accounts.find(accountNumber)`, returning `&it->second` on a hit and
`nullptr` (here `none`) otherwise. -/
def MapAccountStorage.findAccount (m : MapAccountStorage) (accountNumber : String) :
    Option BankAccount :=
  m.accounts accountNumber

/-- State-passing form of `MapAccountStorage::findAccount`: the C++ member function
reads `accounts` but never writes it, so the resulting storage is the input storage. -/
def MapAccountStorage.findAccountSt (m : MapAccountStorage) (accountNumber : String) :
    Option BankAccount × MapAccountStorage :=
  (m.findAccount accountNumber, m)

/-- Left fold of `MapAccountStorage::addAccount` over a list of records, starting from
the given storage, mirroring the driver's insertion loop. -/
def mapBuildFrom (m : MapAccountStorage) : List BankAccount → MapAccountStorage
  | [] => m
  | a :: rest => mapBuildFrom (m.addAccount a) rest

/-- Insertion of a list of records into an initially empty `MapAccountStorage`. -/
def mapBuild (l : List BankAccount) : MapAccountStorage :=
  mapBuildFrom .empty l

/-! ### DistributedVectorAccountStorage -/

/-- `DistributedVectorAccountStorage`: the C++ member
`std::vector<BankAccount> accounts[10]`, one vector per leading digit. -/
structure DistributedVectorAccountStorage where
  accounts : Fin 10 → List BankAccount

/-- The storage with ten default-constructed empty vectors. -/
def DistributedVectorAccountStorage.empty : DistributedVectorAccountStorage :=
  ⟨fun _ => []⟩

/-- The C++ `int index = firstChar - '0'` inside `getRef` (plain `int` arithmetic on
character codes, so it can be negative or exceed 9). -/
def getRefIndex (firstChar : Char) : Int :=
  (firstChar.toNat : Int) - ('0'.toNat : Int)

/-- The array subscript `accounts[index]` performed by `getRef`: a valid bucket for an
index in `[0, 10)`, and an out-of-range array access — undefined behavior, modelled as
`none` — otherwise. -/
def getRefBucket (firstChar : Char) : Option (Fin 10) :=
  if h : 0 ≤ getRefIndex firstChar ∧ getRefIndex firstChar < 10 then
    some ⟨(getRefIndex firstChar).toNat, by omega⟩
  else
    none

/-- `DistributedVectorAccountStorage::addAccount`: `push_back` of the record onto the
bucket selected by the first character of its account number; `none` when the bucket
subscript is out of range (undefined behavior in the C++). -/
def DistributedVectorAccountStorage.addAccount (s : DistributedVectorAccountStorage)
    (account : BankAccount) : Option DistributedVectorAccountStorage :=
  match getRefBucket (strFirstChar account.accountNumber) with
  | none => none
  | some i => some ⟨fun j => if j = i then s.accounts i ++ [account] else s.accounts j⟩

/-- `DistributedVectorAccountStorage::findAccount`: a forward linear scan of the bucket
selected by the queried key's first character, returning the first record whose full
account number matches (`none` inside), wrapped in the undefined-behavior layer
(`none` outside when the bucket subscript is out of range). -/
def DistributedVectorAccountStorage.findAccount (s : DistributedVectorAccountStorage)
    (accountNumber : String) : Option (Option BankAccount) :=
  match getRefBucket (strFirstChar accountNumber) with
  | none => none
  | some i => some ((s.accounts i).find? (fun a => a.accountNumber == accountNumber))

/-- Left fold of `DistributedVectorAccountStorage::addAccount` over a list of records,
propagating the undefined-behavior marker. -/
def dvasBuildFrom (s : DistributedVectorAccountStorage) :
    List BankAccount → Option DistributedVectorAccountStorage
  | [] => some s
  | a :: rest =>
    match s.addAccount a with
    | none => none
    | some s2 => dvasBuildFrom s2 rest

/-- Insertion of a list of records into an initially empty
`DistributedVectorAccountStorage`. -/
def dvasBuild (l : List BankAccount) : Option DistributedVectorAccountStorage :=
  dvasBuildFrom .empty l

/-! ### BinarySearchStorage -/

/-- `BinarySearchStorage`: the C++ member `std::vector<BankAccount> accounts`. -/
structure BinarySearchStorage where
  accounts : List BankAccount

/-- An empty `BinarySearchStorage`. -/
def BinarySearchStorage.empty : BinarySearchStorage :=
  ⟨[]⟩

/-- Ordering used by `sortAccounts`: the C++ comparator is the strict
`a.getAccountNumber() < b.getAccountNumber()`, and a sequence sorted by `std::sort`
with it is exactly one that is non-decreasing under `≤` on the account numbers (the
order among equal keys is unspecified in C++; `mergeSort` fixes one such order). -/
def accountLe (a b : BankAccount) : Bool :=
  a.accountNumber ≤ b.accountNumber

/-- `BinarySearchStorage::sortAccounts`: `std::sort` of the backing vector by account
number. -/
def BinarySearchStorage.sortAccounts (s : BinarySearchStorage) : BinarySearchStorage :=
  ⟨s.accounts.mergeSort accountLe⟩

/-- `BinarySearchStorage::addAccount`: `push_back`, no sorting. -/
def BinarySearchStorage.addAccount (s : BinarySearchStorage) (account : BankAccount) :
    BinarySearchStorage :=
  ⟨s.accounts ++ [account]⟩

/-- The binary-search loop of `BinarySearchStorage::findAccount`, with the `int`
cursors `left` and `right` modelled as `Int` (on the empty vector the C++
`accounts.size() - 1` converted to `int` is `-1`). The element access `accounts[mid]`
only happens with `0 ≤ left ≤ mid ≤ right < accounts.size()`, where `getD` returns the
actual element. -/
def binarySearchLoop (accounts : List BankAccount) (accountNumber : String)
    (left right : Int) : Option BankAccount :=
  if left ≤ right then
    let mid : Int := left + (right - left) / 2
    let midAccount := accounts.getD mid.toNat default
    if midAccount.accountNumber = accountNumber then
      some midAccount
    else if midAccount.accountNumber < accountNumber then
      binarySearchLoop accounts accountNumber (mid + 1) right
    else
      binarySearchLoop accounts accountNumber left (mid - 1)
  else
    none
termination_by (right + 1 - left).toNat
decreasing_by
  all_goals omega

/-- `BinarySearchStorage::findAccount`: sorts the whole backing vector, then runs the
binary search on it. The pair returns both the C++ return value and the storage as
left by the call (the sort is the call's only mutation). -/
def BinarySearchStorage.findAccount (s : BinarySearchStorage) (accountNumber : String) :
    Option BankAccount × BinarySearchStorage :=
  let sorted := s.sortAccounts
  (binarySearchLoop sorted.accounts accountNumber 0 ((sorted.accounts.length : Int) - 1),
   sorted)

/-- Left fold of `BinarySearchStorage::addAccount` over a list of records. -/
def bsBuildFrom (s : BinarySearchStorage) : List BankAccount → BinarySearchStorage
  | [] => s
  | a :: rest => bsBuildFrom (s.addAccount a) rest

/-- Insertion of a list of records into an initially empty `BinarySearchStorage`. -/
def bsBuild (l : List BankAccount) : BinarySearchStorage :=
  bsBuildFrom .empty l

/-! ### The storage interface and the Bank façade -/

/-- `IAccountStorage`: the polymorphic storage interface, over an arbitrary state type
`σ`. Both operations carry the undefined-behavior layer (`none` = the call performed
undefined behavior), and `findAccount` is state-passing because
`BinarySearchStorage::findAccount` mutates the storage. -/
structure IAccountStorage (σ : Type) where
  addAccount : σ → BankAccount → Option σ
  findAccount : σ → String → Option (Option BankAccount × σ)

/-- `MapAccountStorage` as an `IAccountStorage`: both operations are total and
`findAccount` leaves the state unchanged. -/
def mapStorageIface : IAccountStorage MapAccountStorage where
  addAccount m a := some (m.addAccount a)
  findAccount m k := some (m.findAccountSt k)

/-- `DistributedVectorAccountStorage` as an `IAccountStorage`: `findAccount` leaves the
state unchanged but both operations can hit the out-of-range bucket access. -/
def dvasStorageIface : IAccountStorage DistributedVectorAccountStorage where
  addAccount s a := s.addAccount a
  findAccount s k := (s.findAccount k).map (fun r => (r, s))

/-- `BinarySearchStorage` as an `IAccountStorage`: total, but `findAccount` re-sorts
the state. -/
def bsStorageIface : IAccountStorage BinarySearchStorage where
  addAccount s a := some (s.addAccount a)
  findAccount s k := some (s.findAccount k)

/-- `Bank::addAccount(accountNumber)`: constructs `BankAccount(accountNumber)` (balance
zero) by the implicit conversion, forwards it to the storage's `addAccount`, and
unconditionally returns `true`. The pair carries the returned `bool` and the resulting
storage state. -/
def Bank.addAccount {σ : Type} (st : IAccountStorage σ) (s : σ) (accountNumber : String) :
    Bool × Option σ :=
  (true, st.addAccount s (BankAccount.ofNumber accountNumber))

/-- `Bank::getAccount(accountNumber)`: a direct forward to the storage's
`findAccount`. -/
def Bank.getAccount {σ : Type} (st : IAccountStorage σ) (s : σ) (accountNumber : String) :
    Option (Option BankAccount × σ) :=
  st.findAccount s accountNumber

/-! ### The circular queue -/

/-- The fixed-capacity circular `Queue<T, Capacity>`. The backing array `data` is
modelled as a total function on indices (the C++ array is only ever accessed at
`start` and `end`, which stay below `Capacity`); `qend` is the C++ member `end`,
renamed because `end` is reserved in Lean. -/
structure Queue (α : Type) (Capacity : Nat) where
  data : Nat → α
  start : Nat
  qend : Nat
  size : Nat

/-- `Queue::push`: when there is room, writes the element at `end`, advances `end`
circularly and grows `size`, returning `true`; when the queue is full it returns
`false` and touches nothing. -/
def Queue.push {α : Type} {Capacity : Nat} (q : Queue α Capacity) (element : α) :
    Bool × Queue α Capacity :=
  if q.size < Capacity then
    (true,
     { data := fun i => if i = q.qend then element else q.data i,
       start := q.start,
       qend := (q.qend + 1) % Capacity,
       size := q.size + 1 })
  else
    (false, q)

/-! ### The driver's key generation -/

/-- Body of the driver's padding loop, structurally recursive on the exact number
`10 - s.length` of iterations the loop performs: each iteration prepends one `"0"`,
and the loop exits as soon as the length reaches 10. -/
def zeroPadGo : Nat → String → String
  | 0, s => s
  | n + 1, s => if s.length < 10 then zeroPadGo n ("0" ++ s) else s

/-- The driver's padding loop `while (s.size() < 10) s = "0" + s`. -/
def zeroPad (s : String) : String :=
  zeroPadGo (10 - s.length) s

/-- The `i`-th account number generated by the driver: `std::to_string(i)` zero-padded
to ten characters. -/
def scenarioKey (i : Nat) : String :=
  zeroPad (toString i)

/-- The records of the specification's scenario: keys `"0000000001"` through
`"0000001000"`, each with balance `0`. -/
def scenarioAdds : List BankAccount :=
  (List.range 1000).map (fun i => BankAccount.ofNumber (scenarioKey (i + 1)))

/-! ### Lemmas about the sort and the binary search -/

theorem binarySearchLoop_sound (l : List BankAccount) (k : String) :
    ∀ left right : Int, 0 ≤ left → right < (l.length : Int) →
    ∀ a, binarySearchLoop l k left right = some a →
    a ∈ l ∧ a.accountNumber = k := by
  intro left right
  induction left, right using binarySearchLoop.induct l k with
  | case1 left right hle mid midAccount heq =>
    intro h0 hlen a ha
    rw [binarySearchLoop] at ha
    simp only [if_pos hle] at ha
    rw [if_pos heq] at ha
    have hmid : 0 ≤ mid ∧ mid < (l.length : Int) := by unfold mid; omega
    have hget : midAccount = l.get ⟨mid.toNat, by omega⟩ := by
      unfold midAccount
      rw [List.getD_eq_getElem]
      · simp [List.get_eq_getElem]
      · omega
    have hma : midAccount = a := Option.some_inj.mp ha
    refine ⟨?_, ?_⟩
    · rw [← hma, hget]; exact List.get_mem _ _ _
    · rw [← hma]; exact heq
  | case2 left right hle mid midAccount hne hlt ih =>
    intro h0 hlen a ha
    rw [binarySearchLoop] at ha
    simp only [if_pos hle, if_neg hne, if_pos hlt] at ha
    exact ih (by unfold mid; omega) hlen a ha
  | case3 left right hle mid midAccount hne hnlt ih =>
    intro h0 hlen a ha
    rw [binarySearchLoop] at ha
    simp only [if_pos hle, if_neg hne, if_neg hnlt] at ha
    exact ih h0 (by unfold mid; omega) a ha
  | case4 left right hnle =>
    intro h0 hlen a ha
    rw [binarySearchLoop] at ha
    simp only [if_neg hnle] at ha
    exact absurd ha (by simp)
theorem binarySearchLoop_complete (l : List BankAccount) (k : String)
    (hsorted : l.Sorted (fun a b => a.accountNumber ≤ b.accountNumber)) :
    ∀ left right : Int, 0 ≤ left → right < (l.length : Int) →
    ∀ j : Fin l.length,
    left ≤ (j : Int) → (j : Int) ≤ right →
    (l.get j).accountNumber = k →
    ∃ a, binarySearchLoop l k left right = some a := by
  intro left right
  induction left, right using binarySearchLoop.induct l k with
  | case1 left right hle mid midAccount heq =>
    intro h0 hlen j hjl hjr hjk
    refine ⟨midAccount, ?_⟩
    rw [binarySearchLoop]
    simp only [if_pos hle]
    rw [if_pos heq]
  | case2 left right hle mid midAccount hne hlt ih =>
    intro h0 hlen j hjl hjr hjk
    have hmid : 0 ≤ mid ∧ mid ≤ right ∧ left ≤ mid := by unfold mid; omega
    have hmidlen : mid.toNat < l.length := by omega
    have hget : midAccount = l.get ⟨mid.toNat, hmidlen⟩ := by
      unfold midAccount
      rw [List.getD_eq_getElem _ _ hmidlen]
      simp [List.get_eq_getElem]
    have hjgt : mid < (j : Int) := by
      by_contra hcon
      push_neg at hcon
      rcases lt_or_eq_of_le hcon with hlt2 | heq2
      · have hj2 : (⟨(j : Nat), j.isLt⟩ : Fin l.length) < ⟨mid.toNat, hmidlen⟩ := by
          simp only [Fin.mk_lt_mk]
          omega
        have := hsorted.rel_get_of_lt hj2
        simp only [Fin.eta] at this
        rw [hjk, ← hget] at this
        exact absurd (lt_of_le_of_lt this hlt) (lt_irrefl _)
      · have hje : j = (⟨mid.toNat, hmidlen⟩ : Fin l.length) := by
          apply Fin.ext; simp only []; omega
        rw [hje, ← hget] at hjk
        exact hne hjk
    refine (ih (by omega) hlen j (by omega) hjr hjk).imp (fun a ha => ?_)
    rw [binarySearchLoop]
    simp only [if_pos hle]
    rw [if_neg hne, if_pos hlt]
    exact ha
  | case3 left right hle mid midAccount hne hnlt ih =>
    intro h0 hlen j hjl hjr hjk
    have hmid : 0 ≤ mid ∧ mid ≤ right ∧ left ≤ mid := by unfold mid; omega
    have hmidlen : mid.toNat < l.length := by omega
    have hget : midAccount = l.get ⟨mid.toNat, hmidlen⟩ := by
      unfold midAccount
      rw [List.getD_eq_getElem _ _ hmidlen]
      simp [List.get_eq_getElem]
    have hkmid : k < midAccount.accountNumber :=
      lt_of_le_of_ne (not_lt.mp hnlt) (fun h => hne h.symm)
    have hjlt : (j : Int) < mid := by
      by_contra hcon
      push_neg at hcon
      rcases lt_or_eq_of_le hcon with hlt2 | heq2
      · have hj2 : (⟨mid.toNat, hmidlen⟩ : Fin l.length) < ⟨(j : Nat), j.isLt⟩ := by
          simp only [Fin.mk_lt_mk]
          omega
        have := hsorted.rel_get_of_lt hj2
        simp only [Fin.eta] at this
        rw [hjk, ← hget] at this
        exact absurd (lt_of_lt_of_le hkmid this) (lt_irrefl _)
      · have hje : j = (⟨mid.toNat, hmidlen⟩ : Fin l.length) := by
          apply Fin.ext; simp only []; omega
        rw [hje, ← hget] at hjk
        exact hne hjk
    refine (ih h0 (by omega) j hjl (by omega) hjk).imp (fun a ha => ?_)
    rw [binarySearchLoop]
    simp only [if_pos hle]
    rw [if_neg hne, if_neg hnlt]
    exact ha
  | case4 left right hnle =>
    intro h0 hlen j hjl hjr hjk
    exact absurd (le_trans hjl hjr) hnle

theorem accountLe_trans : ∀ a b c : BankAccount, accountLe a b → accountLe b c → accountLe a c := by
  intro a b c hab hbc
  simp only [accountLe, decide_eq_true_eq] at *
  exact le_trans hab hbc

theorem accountLe_total : ∀ a b : BankAccount, accountLe a b || accountLe b a := by
  intro a b
  simp only [accountLe, Bool.or_eq_true, decide_eq_true_eq]
  exact le_total _ _

theorem sortAccounts_perm (s : BinarySearchStorage) :
    s.sortAccounts.accounts.Perm s.accounts :=
  List.mergeSort_perm s.accounts accountLe

theorem sortAccounts_sorted (s : BinarySearchStorage) :
    s.sortAccounts.accounts.Sorted (fun a b => a.accountNumber ≤ b.accountNumber) := by
  have h := List.sorted_mergeSort accountLe_trans accountLe_total s.accounts
  exact h.imp (fun hab => by simpa [accountLe, decide_eq_true_eq] using hab)

theorem bs_findAccount_sound (s : BinarySearchStorage) (k : String) (a : BankAccount)
    (ha : (s.findAccount k).1 = some a) :
    a ∈ s.accounts ∧ a.accountNumber = k := by
  have hs := binarySearchLoop_sound s.sortAccounts.accounts k 0
    ((s.sortAccounts.accounts.length : Int) - 1) (le_refl 0) (by omega) a ha
  exact ⟨(sortAccounts_perm s).mem_iff.mp hs.1, hs.2⟩

theorem bs_findAccount_found (s : BinarySearchStorage) (k : String)
    (hex : ∃ a ∈ s.accounts, a.accountNumber = k) :
    ∃ a, (s.findAccount k).1 = some a ∧ a ∈ s.accounts ∧ a.accountNumber = k := by
  rcases hex with ⟨v, hv, hvk⟩
  have hv2 : v ∈ s.sortAccounts.accounts := (sortAccounts_perm s).mem_iff.mpr hv
  rcases List.mem_iff_get.mp hv2 with ⟨j, hj⟩
  have hlen : 0 < s.sortAccounts.accounts.length := by
    rcases j with ⟨jv, hjv⟩
    omega
  rcases binarySearchLoop_complete s.sortAccounts.accounts k (sortAccounts_sorted s)
      0 ((s.sortAccounts.accounts.length : Int) - 1) (le_refl 0) (by omega)
      j (by omega) (by have := j.isLt; omega) (by rw [hj, hvk]) with ⟨a, ha⟩
  exact ⟨a, ha, bs_findAccount_sound s k a ha⟩

theorem bs_findAccount_none (s : BinarySearchStorage) (k : String)
    (habs : ∀ a ∈ s.accounts, a.accountNumber ≠ k) :
    (s.findAccount k).1 = none := by
  cases hres : (s.findAccount k).1 with
  | none => rfl
  | some a =>
    have := bs_findAccount_sound s k a hres
    exact absurd this.2 (habs a this.1)

theorem bs_findAccount_unique (s : BinarySearchStorage) (k : String) (v : BankAccount)
    (hv : v ∈ s.accounts) (hvk : v.accountNumber = k)
    (huniq : ∀ a ∈ s.accounts, a.accountNumber = k → a = v) :
    (s.findAccount k).1 = some v := by
  rcases bs_findAccount_found s k ⟨v, hv, hvk⟩ with ⟨a, ha, hmem, hak⟩
  rw [ha, huniq a hmem hak]

/-! ### Lemmas about MapAccountStorage -/

theorem mapBuildFrom_find (k : String) :
    ∀ (l : List BankAccount) (m : MapAccountStorage),
    (mapBuildFrom m l).findAccount k =
      (l.reverse.find? (fun a => a.accountNumber == k)).or (m.findAccount k) := by
  intro l
  induction l with
  | nil => intro m; simp [mapBuildFrom]
  | cons a rest ih =>
    intro m
    rw [mapBuildFrom, ih, List.reverse_cons, List.find?_append]
    cases hres : rest.reverse.find? (fun a => a.accountNumber == k) with
    | some b => simp [Option.or]
    | none =>
      simp only [Option.or]
      by_cases hk : a.accountNumber = k
      · simp [MapAccountStorage.addAccount, MapAccountStorage.findAccount, hk]
      · have hne : ¬k = a.accountNumber := fun h => hk h.symm
        have hbeq : (a.accountNumber == k) = false := by simpa using hk
        simp [hbeq, MapAccountStorage.addAccount, MapAccountStorage.findAccount, hne]

theorem find?_reverse_of_nodup_keys (k : String) :
    ∀ l : List BankAccount,
    l.Pairwise (fun a b => a.accountNumber ≠ b.accountNumber) →
    l.reverse.find? (fun a => a.accountNumber == k) =
      l.find? (fun a => a.accountNumber == k) := by
  intro l
  induction l with
  | nil => intro _; rfl
  | cons a rest ih =>
    intro hpw
    rcases List.pairwise_cons.mp hpw with ⟨hnot, hrest⟩
    rw [List.reverse_cons, List.find?_append, ih hrest]
    by_cases hk : a.accountNumber = k
    · have hnone : rest.find? (fun a => a.accountNumber == k) = none := by
        rw [List.find?_eq_none]
        intro b hb
        simpa using hk ▸ (hnot b hb).symm
      have hpa : (a.accountNumber == k) = true := by simpa using hk
      simp [hnone, hpa, Option.or]
    · have hpa : (a.accountNumber == k) = false := by simpa using hk
      simp [hpa, Option.or]
      cases rest.find? (fun a => a.accountNumber == k) <;> simp

theorem mapBuild_find_of_nodup_keys (l : List BankAccount) (k : String)
    (hpw : l.Pairwise (fun a b => a.accountNumber ≠ b.accountNumber)) :
    (mapBuild l).findAccount k = l.find? (fun a => a.accountNumber == k) := by
  rw [mapBuild, mapBuildFrom_find, find?_reverse_of_nodup_keys k l hpw]
  cases h : l.find? (fun a => a.accountNumber == k) <;>
    simp [Option.or, MapAccountStorage.empty, MapAccountStorage.findAccount]

/-! ### Lemmas about DistributedVectorAccountStorage -/

theorem dvas_addAccount_some (s : DistributedVectorAccountStorage) (v : BankAccount)
    (d : Fin 10) (hd : getRefBucket (strFirstChar v.accountNumber) = some d) :
    s.addAccount v =
      some ⟨fun j => if j = d then s.accounts d ++ [v] else s.accounts j⟩ := by
  rw [DistributedVectorAccountStorage.addAccount, hd]

theorem dvasBuildFrom_characterization :
    ∀ (l : List BankAccount) (s : DistributedVectorAccountStorage),
    (∀ a ∈ l, (getRefBucket (strFirstChar a.accountNumber)).isSome) →
    ∃ t, dvasBuildFrom s l = some t ∧
      ∀ i : Fin 10, t.accounts i =
        s.accounts i ++
          l.filter (fun a => getRefBucket (strFirstChar a.accountNumber) == some i) := by
  intro l
  induction l with
  | nil =>
    intro s _
    exact ⟨s, rfl, fun i => by simp⟩
  | cons a rest ih =>
    intro s hall
    have ha : (getRefBucket (strFirstChar a.accountNumber)).isSome :=
      hall a (List.mem_cons_self a rest)
    rcases Option.isSome_iff_exists.mp ha with ⟨d, hd⟩
    rcases ih ⟨fun j => if j = d then s.accounts d ++ [a] else s.accounts j⟩
        (fun b hb => hall b (List.mem_cons_of_mem a hb)) with ⟨t, ht, hacc⟩
    refine ⟨t, ?_, ?_⟩
    · rw [dvasBuildFrom, dvas_addAccount_some s a d hd]
      exact ht
    · intro i
      rw [hacc i]
      by_cases hi : i = d
      · subst hi
        have hpred : (getRefBucket (strFirstChar a.accountNumber) == some i) = true := by
          simp [hd]
        simp [List.filter_cons, hpred, List.append_assoc]
      · have hpred : (getRefBucket (strFirstChar a.accountNumber) == some i) = false := by
          rw [hd]
          simpa using fun h => hi h.symm
        simp [List.filter_cons, hpred, hi]

theorem filter_bucket_find? (k : String) (d : Fin 10)
    (hd : getRefBucket (strFirstChar k) = some d) :
    ∀ l : List BankAccount,
    (l.filter (fun a => getRefBucket (strFirstChar a.accountNumber) == some d)).find?
        (fun a => a.accountNumber == k) =
      l.find? (fun a => a.accountNumber == k) := by
  intro l
  induction l with
  | nil => rfl
  | cons a rest ih =>
    by_cases hk : a.accountNumber = k
    · have hpa : (a.accountNumber == k) = true := by simpa using hk
      have hbucket : (getRefBucket (strFirstChar a.accountNumber) == some d) = true := by
        rw [hk, hd]
        simp
      simp [List.filter_cons, hbucket, List.find?_cons, hpa]
    · have hpa : (a.accountNumber == k) = false := by simpa using hk
      by_cases hb : (getRefBucket (strFirstChar a.accountNumber) == some d) = true
      · simp [List.filter_cons, hb, List.find?_cons, hpa, ih]
      · simp only [Bool.not_eq_true] at hb
        simp [List.filter_cons, hb, List.find?_cons, hpa, ih]

theorem dvas_find_via_bucket (s : DistributedVectorAccountStorage) (k : String)
    (d : Fin 10) (hd : getRefBucket (strFirstChar k) = some d) :
    s.findAccount k = some ((s.accounts d).find? (fun a => a.accountNumber == k)) := by
  rw [DistributedVectorAccountStorage.findAccount, hd]

theorem dvas_build_find (l : List BankAccount) (k : String)
    (hall : ∀ a ∈ l, (getRefBucket (strFirstChar a.accountNumber)).isSome)
    (d : Fin 10) (hd : getRefBucket (strFirstChar k) = some d) :
    ∃ t, dvasBuild l = some t ∧
      t.findAccount k = some (l.find? (fun a => a.accountNumber == k)) := by
  rcases dvasBuildFrom_characterization l .empty hall with ⟨t, ht, hacc⟩
  refine ⟨t, ht, ?_⟩
  rw [dvas_find_via_bucket t k d hd, hacc d]
  simp only [DistributedVectorAccountStorage.empty, List.nil_append]
  rw [filter_bucket_find? k d hd l]

/-! ### Decimal digits and bucket indices -/

theorem char_le_iff_toNat (a b : Char) : a ≤ b ↔ a.toNat ≤ b.toNat := by
  rw [Char.le_def, UInt32.le_def, BitVec.le_def]
  exact Iff.rfl

theorem isDigit_iff_toNat (c : Char) : c.isDigit ↔ 48 ≤ c.toNat ∧ c.toNat ≤ 57 := by
  simp only [Char.isDigit, Bool.and_eq_true, decide_eq_true_eq, ge_iff_le]
  constructor
  · rintro ⟨h1, h2⟩
    exact ⟨(char_le_iff_toNat ⟨48, by decide⟩ c).mp h1, (char_le_iff_toNat c ⟨57, by decide⟩).mp h2⟩
  · rintro ⟨h1, h2⟩
    exact ⟨(char_le_iff_toNat ⟨48, by decide⟩ c).mpr h1, (char_le_iff_toNat c ⟨57, by decide⟩).mpr h2⟩

theorem getRefBucket_isSome_iff (c : Char) : (getRefBucket c).isSome ↔ c.isDigit := by
  rw [isDigit_iff_toNat]
  unfold getRefBucket
  have h0 : ('0'.toNat : Int) = 48 := rfl
  by_cases h : 0 ≤ getRefIndex c ∧ getRefIndex c < 10
  · rw [dif_pos h]
    unfold getRefIndex at h
    rw [h0] at h
    simp only [Option.isSome_some, true_iff]
    omega
  · rw [dif_neg h]
    unfold getRefIndex at h
    rw [h0] at h
    simp only [Option.isSome_none, Bool.false_eq_true, false_iff]
    omega

theorem getRefBucket_digit_exists (c : Char) (h : c.isDigit) : ∃ d, getRefBucket c = some d := by
  rcases Option.isSome_iff_exists.mp ((getRefBucket_isSome_iff c).mpr h) with ⟨d, hd⟩
  exact ⟨d, hd⟩

/-- Find on a key whose leading character selects an out-of-range bucket: the C++ call
performs undefined behavior, the model returns the marker `none`. -/
theorem dvas_find_nodigit (s : DistributedVectorAccountStorage) (k : String)
    (h : getRefBucket (strFirstChar k) = none) : s.findAccount k = none := by
  rw [DistributedVectorAccountStorage.findAccount, h]

/-- Storage built from digit-leading records answers every digit-leading query by the
first matching record of the insertion sequence. -/
theorem dvas_build_find_all (l : List BankAccount)
    (hall : ∀ a ∈ l, (getRefBucket (strFirstChar a.accountNumber)).isSome) :
    ∃ t, dvasBuild l = some t ∧
      ∀ (k : String) (d : Fin 10), getRefBucket (strFirstChar k) = some d →
        t.findAccount k = some (l.find? (fun a => a.accountNumber == k)) := by
  rcases dvasBuildFrom_characterization l .empty hall with ⟨t, ht, hacc⟩
  refine ⟨t, ht, fun k d hd => ?_⟩
  rw [dvas_find_via_bucket t k d hd, hacc d]
  simp only [DistributedVectorAccountStorage.empty, List.nil_append]
  rw [filter_bucket_find? k d hd l]

/-- The backing vector of a `BinarySearchStorage` built by folding `addAccount` is the
initial vector followed by the added records, in insertion order. -/
theorem bsBuildFrom_accounts :
    ∀ (l : List BankAccount) (s : BinarySearchStorage),
    (bsBuildFrom s l).accounts = s.accounts ++ l := by
  intro l
  induction l with
  | nil => intro s; simp [bsBuildFrom]
  | cons a rest ih =>
    intro s
    rw [bsBuildFrom, ih]
    simp [BinarySearchStorage.addAccount]

/-- The backing vector of `bsBuild l` is `l` itself. -/
theorem bsBuild_accounts (l : List BankAccount) : (bsBuild l).accounts = l := by
  rw [bsBuild, bsBuildFrom_accounts]
  rfl

/-! ### Claim theorems -/

/-- C2. Effect of `findAccount` on the storage state: `MapAccountStorage::findAccount`
leaves the storage unchanged, while `BinarySearchStorage::findAccount` replaces the
backing sequence by its re-sort — a permutation of the previous contents that is
sorted ascending by account number — before the binary search runs, the search is
performed on exactly that sorted sequence, and the sort is the call's only
modification of the state. -/
theorem claim2_find_state_effect (m : MapAccountStorage) (s : BinarySearchStorage)
    (k : String) :
    m.findAccountSt k = (m.findAccount k, m)
    ∧ (s.findAccount k).2.accounts = s.accounts.mergeSort accountLe
    ∧ (s.findAccount k).2.accounts.Perm s.accounts
    ∧ (s.findAccount k).2.accounts.Sorted (fun a b => a.accountNumber ≤ b.accountNumber)
    ∧ (s.findAccount k).1 = binarySearchLoop (s.findAccount k).2.accounts k 0
        (((s.findAccount k).2.accounts.length : Int) - 1) := by
  refine ⟨rfl, rfl, ?_, ?_, rfl⟩
  · exact sortAccounts_perm s
  · exact sortAccounts_sorted s

/-- C5. Overwrite semantics of `MapAccountStorage`: after adding two records with the
same account number, `findAccount` on that number returns the second record and can no
longer return the first. -/
theorem claim5_map_overwrite (m : MapAccountStorage) (a1 a2 : BankAccount)
    (hkey : a2.accountNumber = a1.accountNumber) (hne : a1 ≠ a2) :
    ((m.addAccount a1).addAccount a2).findAccount a1.accountNumber = some a2
    ∧ ((m.addAccount a1).addAccount a2).findAccount a1.accountNumber ≠ some a1 := by
  have hfind : ((m.addAccount a1).addAccount a2).findAccount a1.accountNumber = some a2 := by
    simp [MapAccountStorage.addAccount, MapAccountStorage.findAccount, hkey]
  refine ⟨hfind, ?_⟩
  rw [hfind]
  intro hcon
  exact hne (Option.some_inj.mp hcon).symm

/-- C5 witness: a concrete overwrite. -/
theorem claim5_map_overwrite_witness :
    ((MapAccountStorage.empty.addAccount ⟨"7", 1⟩).addAccount ⟨"7", 2⟩).findAccount "7" =
        some ⟨"7", 2⟩
    ∧ ((MapAccountStorage.empty.addAccount ⟨"7", 1⟩).addAccount ⟨"7", 2⟩).findAccount "7" ≠
        some ⟨"7", 1⟩ :=
  claim5_map_overwrite MapAccountStorage.empty ⟨"7", 1⟩ ⟨"7", 2⟩ rfl (by decide)

/-- C9. The `Bank` façade: `addAccount` always returns `true`, hands the storage a
zero-balance record built from the key, and `getAccount` returns exactly what the
backend's `findAccount` returns. -/
theorem claim9_bank_facade {σ : Type} (st : IAccountStorage σ) (s : σ)
    (accountNumber : String) :
    (Bank.addAccount st s accountNumber).1 = true
    ∧ (Bank.addAccount st s accountNumber).2 =
        st.addAccount s { accountNumber := accountNumber, balance := 0 }
    ∧ Bank.getAccount st s accountNumber = st.findAccount s accountNumber :=
  ⟨rfl, rfl, rfl⟩

/-- C10. `Queue::push`: with room it returns `true` and writes the element at the back
slot `qend`, advancing `qend` circularly and growing `size`; on a full queue it returns
`false` and leaves the state untouched; in consequence `size` never exceeds
`Capacity`. -/
theorem claim10_queue_push {α : Type} {Capacity : Nat} (q : Queue α Capacity) (e : α) :
    (q.size < Capacity →
      q.push e = (true,
        { data := fun i => if i = q.qend then e else q.data i,
          start := q.start,
          qend := (q.qend + 1) % Capacity,
          size := q.size + 1 })
      ∧ (q.push e).2.data q.qend = e
      ∧ (q.push e).2.size = q.size + 1)
    ∧ (q.size = Capacity → q.push e = (false, q))
    ∧ (q.size ≤ Capacity → (q.push e).2.size ≤ Capacity) := by
  refine ⟨fun hlt => ?_, fun heq => ?_, fun hle => ?_⟩
  · rw [Queue.push, if_pos hlt]
    exact ⟨rfl, by simp, rfl⟩
  · rw [Queue.push, if_neg (by omega)]
  · rw [Queue.push]
    by_cases hlt : q.size < Capacity
    · rw [if_pos hlt]
      show q.size + 1 ≤ Capacity
      omega
    · rw [if_neg hlt]
      exact hle

/-- C10 witness: a queue of capacity 1, once empty (push succeeds) and once full
(push fails and preserves the state). -/
theorem claim10_queue_push_witness :
    ((Queue.push (⟨fun _ => 0, 0, 0, 0⟩ : Queue Nat 1) 7).2.data 0 = 7
      ∧ (Queue.push (⟨fun _ => 0, 0, 0, 0⟩ : Queue Nat 1) 7).2.size = 0 + 1)
    ∧ Queue.push (⟨fun _ => 5, 0, 0, 1⟩ : Queue Nat 1) 9 =
        (false, (⟨fun _ => 5, 0, 0, 1⟩ : Queue Nat 1)) := by
  refine ⟨?_, ?_⟩
  · have h := (claim10_queue_push (⟨fun _ => 0, 0, 0, 0⟩ : Queue Nat 1) 7).1 (by decide)
    exact ⟨h.2.1, h.2.2⟩
  · exact (claim10_queue_push (⟨fun _ => 5, 0, 0, 1⟩ : Queue Nat 1) 9).2.1 rfl

/-- C1 counterexample. The round-trip as stated fails for `DistributedVectorAccount
Storage` when a record with the same key and a different balance is already stored:
after the adds `⟨"1", 0⟩` then `v = ⟨"1", 1⟩`, `findAccount "1"` — called immediately
after the add of `v` — returns the earlier record `⟨"1", 0⟩`, not `v`. -/
theorem claim1_roundtrip_counterexample :
    (dvasBuild [⟨"1", 0⟩, ⟨"1", 1⟩]).map (fun s => s.findAccount "1") =
      some (some (some ⟨"1", 0⟩))
    ∧ (⟨"1", 0⟩ : BankAccount) ≠ ⟨"1", 1⟩ := by
  constructor
  · decide
  · decide

/-- C1 amended. The round-trip holds unconditionally for `MapAccountStorage`; for the
two vector backends it holds provided no record with the added key is already present
(and, for the bucketed backend, the key's first character is a decimal digit). -/
theorem claim1_roundtrip_amended :
    (∀ (m : MapAccountStorage) (v : BankAccount),
      (m.addAccount v).findAccount v.accountNumber = some v)
    ∧ (∀ (s : DistributedVectorAccountStorage) (v : BankAccount),
        (strFirstChar v.accountNumber).isDigit →
        (∀ i : Fin 10, ∀ a ∈ s.accounts i, a.accountNumber ≠ v.accountNumber) →
        ∃ s2, s.addAccount v = some s2 ∧
          s2.findAccount v.accountNumber = some (some v))
    ∧ (∀ (s : BinarySearchStorage) (v : BankAccount),
        (∀ a ∈ s.accounts, a.accountNumber ≠ v.accountNumber) →
        ((s.addAccount v).findAccount v.accountNumber).1 = some v) := by
  refine ⟨fun m v => ?_, fun s v hdig hfresh => ?_, fun s v hfresh => ?_⟩
  · simp [MapAccountStorage.addAccount, MapAccountStorage.findAccount]
  · rcases getRefBucket_digit_exists _ hdig with ⟨d, hd⟩
    refine ⟨_, dvas_addAccount_some s v d hd, ?_⟩
    rw [dvas_find_via_bucket _ _ d hd]
    simp only [eq_self_iff_true, if_true, List.find?_append]
    have hnone : (s.accounts d).find? (fun a => a.accountNumber == v.accountNumber) = none := by
      rw [List.find?_eq_none]
      intro b hb
      simpa using hfresh d b hb
    rw [hnone]
    simp [Option.or]
  · apply bs_findAccount_unique
    · exact List.mem_append_right _ (List.mem_singleton_self v)
    · rfl
    · intro a ha hak
      rcases List.mem_append.mp ha with hmem | hmem
      · exact absurd hak (hfresh a hmem)
      · exact List.mem_singleton.mp hmem

/-- C1 witness: the amended round-trip at concrete inputs, one per backend, with every
freshness and digit hypothesis discharged on explicit data. -/
theorem claim1_roundtrip_amended_witness :
    (MapAccountStorage.empty.addAccount ⟨"42", 3⟩).findAccount "42" = some ⟨"42", 3⟩
    ∧ (∃ s2, DistributedVectorAccountStorage.empty.addAccount ⟨"42", 3⟩ = some s2 ∧
        s2.findAccount "42" = some (some ⟨"42", 3⟩))
    ∧ ((BinarySearchStorage.empty.addAccount ⟨"42", 3⟩).findAccount "42").1 =
        some ⟨"42", 3⟩ :=
  ⟨claim1_roundtrip_amended.1 MapAccountStorage.empty ⟨"42", 3⟩,
   claim1_roundtrip_amended.2.1 DistributedVectorAccountStorage.empty ⟨"42", 3⟩
     (by decide) (by intro i a ha; simp [DistributedVectorAccountStorage.empty] at ha),
   claim1_roundtrip_amended.2.2 BinarySearchStorage.empty ⟨"42", 3⟩
     (by intro a ha; simp [BinarySearchStorage.empty] at ha)⟩

/-- C4 counterexample. The absence property as stated fails for
`DistributedVectorAccountStorage`: on the empty storage — where no key was ever
added — `findAccount "notfound"` does not return the absent value `some none`; it
computes bucket index `'n' - '0' = 62` and performs the out-of-range access (the
undefined-behavior marker `none`). -/
theorem claim4_absence_counterexample :
    DistributedVectorAccountStorage.empty.findAccount "notfound" ≠ some none
    ∧ DistributedVectorAccountStorage.empty.findAccount "notfound" = none := by
  constructor
  · decide
  · decide

/-- C4 amended. Find on a never-added key returns the absent value: for
`MapAccountStorage` and `BinarySearchStorage` for every such key and every storage
built by adds, and for `DistributedVectorAccountStorage` under the additional
precondition that all keys involved start with a decimal digit. -/
theorem claim4_absence_amended :
    (∀ (l : List BankAccount) (k : String), (∀ a ∈ l, a.accountNumber ≠ k) →
      (mapBuild l).findAccount k = none)
    ∧ (∀ (l : List BankAccount) (k : String), (∀ a ∈ l, a.accountNumber ≠ k) →
      ((bsBuild l).findAccount k).1 = none)
    ∧ (∀ (l : List BankAccount) (k : String),
      (∀ a ∈ l, (strFirstChar a.accountNumber).isDigit) →
      (strFirstChar k).isDigit →
      (∀ a ∈ l, a.accountNumber ≠ k) →
      ∃ t, dvasBuild l = some t ∧ t.findAccount k = some none) := by
  refine ⟨fun l k habs => ?_, fun l k habs => ?_, fun l k hall hk habs => ?_⟩
  · rw [mapBuild, mapBuildFrom_find]
    have hnone : l.reverse.find? (fun a => a.accountNumber == k) = none := by
      rw [List.find?_eq_none]
      intro b hb
      simpa using habs b (List.mem_reverse.mp hb)
    rw [hnone]
    rfl
  · apply bs_findAccount_none
    rw [bsBuild_accounts]
    exact habs
  · rcases getRefBucket_digit_exists _ hk with ⟨d, hd⟩
    rcases dvas_build_find l k
        (fun a ha => (getRefBucket_isSome_iff _).mpr (hall a ha)) d hd with ⟨t, ht, hfind⟩
    refine ⟨t, ht, ?_⟩
    rw [hfind]
    have hnone : l.find? (fun a => a.accountNumber == k) = none := by
      rw [List.find?_eq_none]
      intro b hb
      simpa using habs b hb
    rw [hnone]

/-- C4 witness: the amended absence property at a concrete input: one record under
key `"1"`, queried at the never-added key `"2"`, for each backend. -/
theorem claim4_absence_amended_witness :
    (mapBuild [⟨"1", 5⟩]).findAccount "2" = none
    ∧ ((bsBuild [⟨"1", 5⟩]).findAccount "2").1 = none
    ∧ (∃ t, dvasBuild [⟨"1", 5⟩] = some t ∧ t.findAccount "2" = some none) :=
  ⟨claim4_absence_amended.1 [⟨"1", 5⟩] "2" (by decide),
   claim4_absence_amended.2.1 [⟨"1", 5⟩] "2" (by decide),
   claim4_absence_amended.2.2 [⟨"1", 5⟩] "2" (by decide) (by decide) (by decide)⟩

/-- C6. Partition correctness of `DistributedVectorAccountStorage`: building from
digit-leading records succeeds, every record sits in exactly the bucket indexed by its
key's leading digit, and a successful find only ever returns a record whose leading
character equals the queried key's leading character. -/
theorem claim6_partition (l : List BankAccount)
    (hall : ∀ a ∈ l, (strFirstChar a.accountNumber).isDigit) :
    ∃ t, dvasBuild l = some t ∧
      (∀ i : Fin 10, ∀ a ∈ t.accounts i,
        getRefBucket (strFirstChar a.accountNumber) = some i)
      ∧ (∀ (k : String) (a : BankAccount), t.findAccount k = some (some a) →
        strFirstChar a.accountNumber = strFirstChar k) := by
  rcases dvasBuildFrom_characterization l .empty
      (fun a ha => (getRefBucket_isSome_iff _).mpr (hall a ha)) with ⟨t, ht, hacc⟩
  refine ⟨t, ht, fun i a ha => ?_, fun k a hfind => ?_⟩
  · rw [hacc i] at ha
    simp only [DistributedVectorAccountStorage.empty, List.nil_append] at ha
    have := List.of_mem_filter ha
    simpa using this
  · cases hb : getRefBucket (strFirstChar k) with
    | none => rw [dvas_find_nodigit t k hb] at hfind; exact absurd hfind (by simp)
    | some d =>
      rw [dvas_find_via_bucket t k d hb] at hfind
      have hsome : (t.accounts d).find? (fun a => a.accountNumber == k) = some a :=
        Option.some_inj.mp hfind
      have hkey : a.accountNumber = k := by simpa using List.find?_some hsome
      rw [hkey]

/-- C6 witness: the partition invariant on a concrete one-record build. -/
theorem claim6_partition_witness :
    ∃ t, dvasBuild [⟨"3", 1⟩] = some t ∧
      (∀ i : Fin 10, ∀ a ∈ t.accounts i,
        getRefBucket (strFirstChar a.accountNumber) = some i)
      ∧ (∀ (k : String) (a : BankAccount), t.findAccount k = some (some a) →
        strFirstChar a.accountNumber = strFirstChar k) :=
  claim6_partition [⟨"3", 1⟩] (by decide)

/-- C7. Duplicate coexistence in `DistributedVectorAccountStorage`: when the inserted
digit-leading records contain at least two with the queried key, the build succeeds
and find returns exactly the earliest matching record of the insertion order. -/
theorem claim7_duplicates (l : List BankAccount) (k : String)
    (hall : ∀ a ∈ l, (strFirstChar a.accountNumber).isDigit)
    (hk : (strFirstChar k).isDigit)
    (hdup : 2 ≤ (l.filter (fun a => a.accountNumber == k)).length) :
    ∃ t v, dvasBuild l = some t
      ∧ l.find? (fun a => a.accountNumber == k) = some v
      ∧ v ∈ l ∧ v.accountNumber = k
      ∧ t.findAccount k = some (some v) := by
  rcases getRefBucket_digit_exists _ hk with ⟨d, hd⟩
  rcases dvas_build_find l k
      (fun a ha => (getRefBucket_isSome_iff _).mpr (hall a ha)) d hd with ⟨t, ht, hfind⟩
  have hex : ∃ v, l.find? (fun a => a.accountNumber == k) = some v := by
    cases hres : l.find? (fun a => a.accountNumber == k) with
    | some v => exact ⟨v, rfl⟩
    | none =>
      rw [List.find?_eq_none] at hres
      have : l.filter (fun a => a.accountNumber == k) = [] :=
        List.filter_eq_nil_iff.mpr hres
      rw [this] at hdup
      simp at hdup
  rcases hex with ⟨v, hv⟩
  refine ⟨t, v, ht, hv, List.mem_of_find?_eq_some hv, by simpa using List.find?_some hv, ?_⟩
  rw [hfind, hv]

/-- C7 witness: two records under key `"1"`; find returns the first one inserted. -/
theorem claim7_duplicates_witness :
    ∃ t v, dvasBuild [⟨"1", 0⟩, ⟨"1", 1⟩] = some t
      ∧ List.find? (fun a => a.accountNumber == "1") [⟨"1", 0⟩, ⟨"1", 1⟩] = some v
      ∧ v ∈ [(⟨"1", 0⟩ : BankAccount), ⟨"1", 1⟩] ∧ v.accountNumber = "1"
      ∧ t.findAccount "1" = some (some v) :=
  claim7_duplicates [⟨"1", 0⟩, ⟨"1", 1⟩] "1" (by decide) (by decide) (by decide)

/-- C8. Backend interchangeability: over any insertion sequence with pairwise-distinct
digit-leading keys and any digit-leading query, the three backends agree — each returns
the unique stored record with the queried key, or all report absence — the common
value being the first (and only) match of the insertion sequence. -/
theorem claim8_backend_agreement (l : List BankAccount) (k : String)
    (hpw : l.Pairwise (fun a b => a.accountNumber ≠ b.accountNumber))
    (hall : ∀ a ∈ l, (strFirstChar a.accountNumber).isDigit)
    (hk : (strFirstChar k).isDigit) :
    ∃ t, dvasBuild l = some t
      ∧ (mapBuild l).findAccount k = l.find? (fun a => a.accountNumber == k)
      ∧ t.findAccount k = some (l.find? (fun a => a.accountNumber == k))
      ∧ ((bsBuild l).findAccount k).1 = l.find? (fun a => a.accountNumber == k) := by
  rcases getRefBucket_digit_exists _ hk with ⟨d, hd⟩
  rcases dvas_build_find l k
      (fun a ha => (getRefBucket_isSome_iff _).mpr (hall a ha)) d hd with ⟨t, ht, hfind⟩
  refine ⟨t, ht, mapBuild_find_of_nodup_keys l k hpw, hfind, ?_⟩
  cases hres : l.find? (fun a => a.accountNumber == k) with
  | none =>
    apply bs_findAccount_none
    rw [bsBuild_accounts]
    rw [List.find?_eq_none] at hres
    intro a ha
    simpa using hres a ha
  | some v =>
    apply bs_findAccount_unique
    · rw [bsBuild_accounts]
      exact List.mem_of_find?_eq_some hres
    · simpa using List.find?_some hres
    · intro a ha hak
      rw [bsBuild_accounts] at ha
      by_contra hne
      have hsym : Symmetric (fun a b : BankAccount => a.accountNumber ≠ b.accountNumber) :=
        fun x y hxy => fun h => hxy h.symm
      have := hpw.forall hsym ha (List.mem_of_find?_eq_some hres) hne
      have hvk : v.accountNumber = k := by simpa using List.find?_some hres
      exact this (hak.trans hvk.symm)

/-- C8 witness: two distinct digit-leading records; the query for `"23"` is answered
identically by all three backends. -/
theorem claim8_backend_agreement_witness :
    ∃ t, dvasBuild [⟨"1", 4⟩, ⟨"23", 7⟩] = some t
      ∧ (mapBuild [⟨"1", 4⟩, ⟨"23", 7⟩]).findAccount "23" =
          List.find? (fun a => a.accountNumber == "23") [⟨"1", 4⟩, ⟨"23", 7⟩]
      ∧ t.findAccount "23" =
          some (List.find? (fun a => a.accountNumber == "23") [⟨"1", 4⟩, ⟨"23", 7⟩])
      ∧ ((bsBuild [⟨"1", 4⟩, ⟨"23", 7⟩]).findAccount "23").1 =
          List.find? (fun a => a.accountNumber == "23") [⟨"1", 4⟩, ⟨"23", 7⟩] :=
  claim8_backend_agreement [⟨"1", 4⟩, ⟨"23", 7⟩] "23" (by decide) (by decide) (by decide)

/-- C3 counterexample. In the scenario state, `findAccount "notfound"` does not return
the absent value: `'n' - '0' = 62` selects an out-of-range bucket, so the C++ call
performs undefined behavior (the model's outer `none`), never the clean absent result
`some none` the claim asserts. -/
theorem claim3_scenario_counterexample :
    ¬ ∃ s, dvasBuild scenarioAdds = some s ∧ s.findAccount "notfound" = some none := by
  rintro ⟨s, -, hfind⟩
  rw [dvas_find_nodigit s "notfound" (by decide)] at hfind
  exact absurd hfind (by simp)

set_option maxRecDepth 200000 in
/-- C3 amended. After inserting keys `"0000000001"` through `"0000001000"` (balance 0
each) into `DistributedVectorAccountStorage`, `findAccount` succeeds with balance 0 on
the first and the last key, while `findAccount "notfound"` performs the out-of-range
bucket access `'n' - '0' = 62` — undefined behavior, not an absent result. -/
theorem claim3_scenario_amended :
    ∃ s, dvasBuild scenarioAdds = some s
      ∧ s.findAccount "0000000001" = some (some ⟨"0000000001", 0⟩)
      ∧ s.findAccount "0000001000" = some (some ⟨"0000001000", 0⟩)
      ∧ s.findAccount "notfound" = none := by
  have hall : ∀ a ∈ scenarioAdds, (getRefBucket (strFirstChar a.accountNumber)).isSome := by
    have hb : scenarioAdds.all
        (fun a => (getRefBucket (strFirstChar a.accountNumber)).isSome) = true := by decide
    intro a ha
    exact List.all_eq_true.mp hb a ha
  rcases dvas_build_find_all scenarioAdds hall with ⟨s, hs, hfind⟩
  refine ⟨s, hs, ?_, ?_, ?_⟩
  · rw [hfind "0000000001" ⟨0, by omega⟩ (by decide)]
    have : scenarioAdds.find? (fun a => a.accountNumber == "0000000001") =
        some ⟨"0000000001", 0⟩ := by decide
    rw [this]
  · rw [hfind "0000001000" ⟨0, by omega⟩ (by decide)]
    have : scenarioAdds.find? (fun a => a.accountNumber == "0000001000") =
        some ⟨"0000001000", 0⟩ := by decide
    rw [this]
  · exact dvas_find_nodigit s "notfound" (by decide)
